import Mathlib

/-!
Verification of the dataplotlib rendering backend.

Shallow embedding of `src/plot.rs` and `src/plotter.rs` (dataplotlib).
Rust `f64` values are modelled by the type `F` below: NaN, signed
infinities, or an exact rational (decimal literals in the source are read
as their exact rational value).  Rust panics (`unwrap` on `None`, index
out of bounds, `usize` underflow) are modelled by `Option`, with `none`
standing for a panic of the executing thread.
-/

/-- Model of a Rust `f64` value: NaN, a signed infinity (`inf true` is
`+∞`), or a finite value represented exactly as a rational.  There is no
separate negative zero (it is observationally irrelevant for every
operation this code performs). -/
inductive F
  | nan : F
  | inf (pos : Bool) : F
  | num (q : ℚ) : F
deriving DecidableEq

namespace F

/-- IEEE-754 `<` on `f64`: any comparison with NaN is false; otherwise
the usual order with `-∞ < finite < +∞`. -/
def lt : F → F → Bool
  | nan, _ => false
  | _, nan => false
  | inf false, inf false => false
  | inf false, _ => true
  | inf true, _ => false
  | num _, inf true => true
  | num _, inf false => false
  | num a, num b => a < b

/-- IEEE-754 `>` on `f64` (Rust's `>` operator). -/
def gt (a b : F) : Bool := lt b a

/-- Rust `f64::max`: if one argument is NaN the other is returned,
otherwise the larger argument. -/
def fmax : F → F → F
  | nan, b => b
  | a, nan => a
  | a, b => if lt a b then b else a

/-- Rust `f64::min`: if one argument is NaN the other is returned,
otherwise the smaller argument. -/
def fmin : F → F → F
  | nan, b => b
  | a, nan => a
  | a, b => if lt b a then b else a

/-- IEEE-754 subtraction. -/
def sub : F → F → F
  | nan, _ => nan
  | _, nan => nan
  | inf s, inf t => if s = t then nan else inf s
  | inf s, num _ => inf s
  | num _, inf t => inf (!t)
  | num a, num b => num (a - b)

/-- IEEE-754 addition. -/
def add : F → F → F
  | nan, _ => nan
  | _, nan => nan
  | inf s, inf t => if s = t then inf s else nan
  | inf s, num _ => inf s
  | num _, inf t => inf t
  | num a, num b => num (a + b)

/-- IEEE-754 multiplication. -/
def mul : F → F → F
  | nan, _ => nan
  | _, nan => nan
  | inf s, inf t => inf (s == t)
  | inf s, num b => if b = 0 then nan else if 0 < b then inf s else inf (!s)
  | num a, inf t => if a = 0 then nan else if 0 < a then inf t else inf (!t)
  | num a, num b => num (a * b)

/-- IEEE-754 division (the model's sole zero is `+0`). -/
def div : F → F → F
  | nan, _ => nan
  | _, nan => nan
  | inf _, inf _ => nan
  | inf s, num b => if 0 ≤ b then inf s else inf (!s)
  | num _, inf _ => num 0
  | num a, num b =>
      if b = 0 then
        if a = 0 then nan else if 0 < a then inf true else inf false
      else num (a / b)

end F

/-- Truncation of a rational toward zero (the rounding used by Rust's
float-to-integer `as` cast for in-range values). -/
def ratTrunc (q : ℚ) : Int := Int.tdiv q.num (q.den : Int)

/-- Saturation of an integer to the `i16` range. -/
def i16clamp (n : Int) : Int := max (-32768) (min n 32767)

/-- Rust's `as i16` cast on an `f64` (saturating semantics: NaN casts to
0, infinities to the extremes, finite values truncate toward zero and
saturate). -/
def F.toI16 : F → Int
  | F.nan => 0
  | F.inf true => 32767
  | F.inf false => -32768
  | F.num q => i16clamp (ratTrunc q)

/-- The floating-point expression computed inside `point2plot`
(`plot.rs` line 193) before the `as i16` cast:
`((pt - min) / (max - min)) * (length - space) + space`. -/
def point2plotF (pt min max length space : F) : F :=
  F.add (F.mul (F.div (F.sub pt min) (F.sub max min)) (F.sub length space)) space

/-- Embedding of `point2plot` (`plot.rs` lines 192–194): the scaled value cast to
`i16`. -/
def point2plot (pt min max length space : F) : Int :=
  (point2plotF pt min max length space).toI16

/-- Embedding of `get_max` (`plot.rs` lines 196–208).  With a user override it is
returned verbatim; otherwise the running maximum (Rust `>` comparisons)
starting from `*values.first().unwrap()` — `none` models the panic of
`unwrap` on an empty vector. -/
def get_max (user_max : Option F) (values : List F) : Option F :=
  match user_max with
  | some max => some max
  | none =>
    match values with
    | [] => none
    | v0 :: _ => some (values.foldl (fun max val => if F.gt val max then val else max) v0)

/-- Embedding of `get_min` (`plot.rs` lines 210–222), dual to `get_max`. -/
def get_min (user_min : Option F) (values : List F) : Option F :=
  match user_min with
  | some min => some min
  | none =>
    match values with
    | [] => none
    | v0 :: _ => some (values.foldl (fun min val => if F.lt val min then val else min) v0)

-- Sanity checks on the float model
example : F.div (F.num 0) (F.num 0) = F.nan := by norm_num [F.div]
example : F.fmax F.nan (F.num 3) = F.num 3 := by simp [F.fmax]
example : point2plot (F.num (9/10)) (F.num 0) (F.num 1) (F.num 1) (F.num 0) = 0 := by
  norm_num [point2plot, point2plotF, F.sub, F.div, F.mul, F.add, F.toI16, ratTrunc, i16clamp]
  decide
example : point2plot (F.num 5) (F.num 5) (F.num 5) (F.num 100) (F.num 10) = 0 := by
  norm_num [point2plot, point2plotF, F.sub, F.div, F.mul, F.add, F.toI16, ratTrunc, i16clamp]
example : get_max none [F.num 1, F.num 4, F.num 2] = some (F.num 4) := by
  norm_num [get_max, F.gt, F.lt]

/-- An RGBA color, four normalized `f32` channels (`[f32; 4]`). -/
abbrev Color := ℚ × ℚ × ℚ × ℚ

/-- Modelled from the spec: the plot-value enum of the `plotbuilder`
module (not part of `src/`).  `plot.rs` matches on the
`XyColor(color, xy)` variant — a color plus an ordered sequence of
`(x, y)` pairs (§3: a Series) — and ignores every other variant through a
wildcard arm; all remaining variants are collapsed into `OtherVariant`. -/
inductive PlotVals2D
  | XyColor (col : Color) (xy : List (F × F)) : PlotVals2D
  | OtherVariant : PlotVals2D

/-- Modelled from the spec: `PlotBuilder2D` from the `plotbuilder` module
(not part of `src/`): an ordered sequence of plot values plus four
independently optional axis-bound overrides (§3: PlotRequest), exactly
the fields `plot.rs` reads (`pvs`, `max_x`, `max_y`, `min_x`, `min_y`). -/
structure PlotBuilder2D where
  pvs : List PlotVals2D
  max_x : Option F
  max_y : Option F
  min_x : Option F
  min_y : Option F

/-- The resolved bounds array `[f64; 4]` of `get_plot_bounds`, in source
order `[MAX_X, MAX_Y, MIN_X, MIN_Y]`. -/
structure PlotBounds where
  max_x : F
  max_y : F
  min_x : F
  min_y : F
deriving DecidableEq

/-- The loop of `get_plot_bounds` (`plot.rs` lines 270–276): for each
`i in 0..xs.len()` push the per-series resolved extrema.  `none` models a
panic: either `get_max`/`get_min` unwrapping an empty series, or the
index `ys[i]` being out of bounds. -/
def boundsLoop (pb : PlotBuilder2D) :
    List (List F) → List (List F) → Option (List F × List F × List F × List F)
  | [], _ => some ([], [], [], [])
  | _ :: _, [] => none
  | x :: xs, y :: ys =>
    match get_max pb.max_x x, get_max pb.max_y y, get_min pb.min_x x, get_min pb.min_y y,
        boundsLoop pb xs ys with
    | some mxx, some mxy, some mnx, some mny, some (rxx, rxy, rnx, rny) =>
        some (mxx :: rxx, mxy :: rxy, mnx :: rnx, mny :: rny)
    | _, _, _, _, _ => none

/-- The global fold `iter().cloned().fold(0. / 0., f64::max)` of
`get_plot_bounds`: a fold of `f64::max` whose initial accumulator is the
NaN produced by `0. / 0.`. -/
def foldMax (l : List F) : F := l.foldl F.fmax F.nan

/-- The global fold `iter().cloned().fold(0. / 0., f64::min)`. -/
def foldMin (l : List F) : F := l.foldl F.fmin F.nan

/-- Embedding of `get_plot_bounds` (`plot.rs` lines 262–285). -/
def get_plot_bounds (pb : PlotBuilder2D) (xs ys : List (List F)) : Option PlotBounds :=
  match boundsLoop pb xs ys with
  | none => none
  | some (max_xs, max_ys, min_xs, min_ys) =>
      some ⟨foldMax max_xs, foldMax max_ys, foldMin min_xs, foldMin min_ys⟩

/-- Push an element onto the last inner vector
(`x_vector[last_index].push(x)`). -/
def pushLast : List (List F) → F → List (List F)
  | [], _ => []
  | [l], x => [l ++ [x]]
  | l :: ls, x => l :: pushLast ls x

/-- Embedding of `set_xy` (`plot.rs` lines 250–260): push a fresh empty vector onto
each of `x_vector`/`y_vector`, then push each pair's components onto
those last vectors. -/
def set_xy (xy : List (F × F)) (x_vector y_vector : List (List F)) :
    List (List F) × List (List F) :=
  xy.foldl (fun acc p => (pushLast acc.1 p.1, pushLast acc.2 p.2))
    (x_vector ++ [[]], y_vector ++ [[]])

/-- The accumulation loop of `Plot::new2d` (`plot.rs` lines 304–312):
drain the plot values; an `XyColor` contributes one x-series, one
y-series and one color; every other variant is skipped. -/
def new2dVectors (pvs : List PlotVals2D) : List Color × List (List F) × List (List F) :=
  pvs.foldl
    (fun acc pv =>
      match pv with
      | PlotVals2D.XyColor col xy =>
          let v := set_xy xy acc.2.1 acc.2.2
          (acc.1 ++ [col], v.1, v.2)
      | PlotVals2D.OtherVariant => acc)
    ([], [], [])

/-- Embedding of `Window` (`plot.rs` lines 39–46); the renderer handle is an external
backend resource and is not part of the data model (its pixel size is
passed to `draw` explicitly). -/
structure Window where
  id : Nat
  xs : Option (List (List F))
  ys : Option (List (List F))
  colors : Option (List Color)
  plot_bounds : Option PlotBounds

/-- Embedding of `Window::new` (`plot.rs` lines 115–117). -/
def Window.new (id : Nat) : Window :=
  { id := id, xs := none, ys := none, colors := none, plot_bounds := none }

/-- One line segment of `thick_line`, as two mapped endpoints. -/
abbrev Seg := (Int × Int) × (Int × Int)

/-- Segment `i` of the inner drawing loop (`plot.rs` lines 167–171):
endpoints `(xt[i], yt[i])` and `(xt[i+1], yt[i+1])`; `none` models an
index-out-of-bounds panic. -/
def segAt (xt yt : List Int) (k : Nat) : Option Seg :=
  match xt.get? k, yt.get? k, xt.get? (k + 1), yt.get? (k + 1) with
  | some xa, some ya, some xb, some yb => some ((xa, ya), (xb, yb))
  | _, _, _, _ => none

/-- One iteration of the per-series loop of `Window::draw` (`plot.rs`
lines 157–172): map the series through `point2plot` (y inverted), then
draw `len - 1` consecutive segments.  `none` models the `usize`
underflow panic when `len == 0`, or an out-of-bounds index. -/
def drawSeries (xsi ysi : List F) (b : PlotBounds) (m space : ℚ) : Option (List Seg) :=
  let y_inv : Int := F.toI16 (F.num (m + space))
  let yt : List Int :=
    ysi.map (fun y => y_inv - point2plot y b.min_y b.max_y (F.num m) (F.num space))
  let xt : List Int :=
    xsi.map (fun x => point2plot x b.min_x b.max_x (F.num m) (F.num space))
  match xsi.length with
  | 0 => none
  | Nat.succ n => (List.range n).mapM (segAt xt yt)

/-- The loop `for i in 0..colors.len()` of `Window::draw`; `none` models
an out-of-bounds index into `xs` or `ys`. -/
def drawLoop (xs ys : List (List F)) (colors : List Color) (b : PlotBounds)
    (m space : ℚ) : Option (List (List Seg)) :=
  (List.range colors.length).mapM (fun i =>
    match xs.get? i, ys.get? i with
    | some xsi, some ysi => drawSeries xsi ysi b m space
    | _, _ => none)

/-- Embedding of `Window::draw` (`plot.rs` lines 119–174).  `w`/`h` are the
renderer's current `output_size`.  The four `unwrap`s on the data fields
come first: `none` when any field is unset (or a later loop panics).  On
success the result is the zero-axis pixel row `y0` and the mapped
segments of every series; backend side effects (clear, borders, present)
have no data content and are omitted. -/
def Window.draw (win : Window) (w h : Nat) : Option (Int × List (List Seg)) :=
  match win.xs, win.ys, win.plot_bounds, win.colors with
  | some xs, some ys, some b, some colors =>
      let margin : ℚ := 5 / 100
      let invmargin : ℚ := 1 - margin
      let m0 : ℚ := (min w h : ℕ)
      let space : ℚ := m0 * margin
      let m : ℚ := m0 * invmargin
      let y0 : Int :=
        F.toI16 (F.num (m + space)) - point2plot (F.num 0) b.min_y b.max_y (F.num m) (F.num space)
      match drawLoop xs ys colors b m space with
      | some segs => some (y0, segs)
      | none => none
  | _, _, _, _ => none

/-- Embedding of `draw_plots` of the `Surface` impl (`plot.rs` lines 178–184): store
the data in the window, then draw immediately; `none` when that first
draw panics. -/
def draw_plots (win : Window) (xs ys : List (List F)) (colors : List Color)
    (b : PlotBounds) (w h : Nat) : Option Window :=
  let win' : Window :=
    { win with xs := some xs, ys := some ys, colors := some colors, plot_bounds := some b }
  match win'.draw w h with
  | some _ => some win'
  | none => none

/-- Embedding of `Plot` (`plot.rs` lines 26–27), a fieldless marker struct. -/
structure Plot where

/-- Embedding of `Plot::new2d` (`plot.rs` lines 292–317): split the plot values into
colors and x/y series, resolve bounds, hand everything to the surface. -/
def new2d (pb : PlotBuilder2D) (win : Window) (w h : Nat) : Option Window :=
  let v := new2dVectors pb.pvs
  match get_plot_bounds pb v.2.1 v.2.2 with
  | none => none
  | some b => draw_plots win v.2.1 v.2.2 v.1 b w h

/-- Embedding of `GUITask` (`plot.rs` lines 29–32). -/
inductive GUITask
  | PlotTask (pb : PlotBuilder2D) (plot : Plot) : GUITask
  | Terminate : GUITask

/-- Embedding of `PlotGUI::add_window` (`plot.rs` lines 98–111): create a backend
window (720×720), wrap it, populate it via `new2d`, insert it into the
live-window map keyed by its fresh id. -/
def add_window (windows : List (Nat × Window)) (nextId : Nat) (pb : PlotBuilder2D) :
    Option (List (Nat × Window) × Nat) :=
  match new2d pb (Window.new nextId) 720 720 with
  | none => none
  | some w => some (windows ++ [(nextId, w)], nextId + 1)

/-- The task-drain loop of `PlotGUI::event_loop` (`plot.rs` lines
78–89): pop tasks until the queue is empty; a `PlotTask` adds a window;
a `Terminate` breaks the main loop (result flag `true`) exactly when the
live-window map is empty, and otherwise is dropped.  `none` models a
panic while adding a window. -/
def drainTasks :
    List GUITask → List (Nat × Window) → Nat → Option (List (Nat × Window) × Nat × Bool)
  | [], ws, ctr => some (ws, ctr, false)
  | GUITask.PlotTask pb _ :: rest, ws, ctr =>
    match add_window ws ctr pb with
    | none => none
    | some (ws', ctr') => drainTasks rest ws' ctr'
  | GUITask.Terminate :: rest, ws, ctr =>
    if ws.isEmpty then some (ws, ctr, true) else drainTasks rest ws ctr

/-- Embedding of `Plotter` (`plotter.rs` lines 21–24): the producer-facing handle;
the `JoinHandle` of the GUI driver thread is modelled as `Unit`. -/
structure Plotter where
  plot_gui : Option Unit
  task_queue : List GUITask

/-- Embedding of `Plotter::new` (`plotter.rs` lines 28–41), with the process-wide
`GUI_INITIALISED` atomic passed and returned explicitly: if the guard is
set, fail; otherwise set the guard, spawn the driver (`PlotGUI::run`,
modelled by the `some ()` join handle) on a fresh shared queue, and
return the handle. -/
def Plotter.new (gui_initialised : Bool) : Except String Plotter × Bool :=
  if gui_initialised then
    (Except.error "Only one gui Plotter may be initialised at a time.", gui_initialised)
  else
    (Except.ok { plot_gui := some (), task_queue := [] }, true)

/-- The floor of a rational, computed by flooring integer division. -/
def ratFloor (q : ℚ) : Int := Int.fdiv q.num (q.den : Int)

/-- Modelled from the spec: rounding to the nearest pixel, §4.2
(`pixel = round(...)`); round-half-up, the tie rule being immaterial
below. -/
def specRound (q : ℚ) : Int := ratFloor (q + 1 / 2)

/-- Modelled from the spec: the Coordinate Mapper formula of §4.2,
`pixel = round( ((value - axisMin) / (axisMax - axisMin)) *
(innerLength - margin) + margin )`. -/
def specMapRound (value axisMin axisMax innerLength margin : ℚ) : Int :=
  specRound (((value - axisMin) / (axisMax - axisMin)) * (innerLength - margin) + margin)

/-- Claim C4 (code bug): with a degenerate axis range
(`min = max = 5`, inner length 100, margin 10) `point2plot` computes the
non-finite value NaN — there is no special case for division by zero —
and the `as i16` cast then turns it into pixel 0, not the midpoint pixel
55 = (10 + 100) / 2 the spec requires. -/
theorem c4_degenerate_axis_not_special_cased :
    point2plotF (F.num 5) (F.num 5) (F.num 5) (F.num 100) (F.num 10) = F.nan ∧
    point2plot (F.num 5) (F.num 5) (F.num 5) (F.num 100) (F.num 10) = 0 ∧
    ((10 : ℚ) + 100) / 2 = 55 ∧ (0 : Int) ≠ 55 := by
  norm_num [point2plot, point2plotF, F.sub, F.div, F.mul, F.add, F.toI16]

/-- Claim C5, counterexample: at `value = 9/10`, `axisMin = 0`,
`axisMax = 1`, `innerLength = 1`, `margin = 0`, the code returns pixel 0
(truncation toward zero) while the spec formula rounds to pixel 1, so
`point2plot` does not implement the claimed rounding. -/
theorem c5_not_rounding_counterexample :
    point2plot (F.num (9 / 10)) (F.num 0) (F.num 1) (F.num 1) (F.num 0) = 0 ∧
    specMapRound (9 / 10) 0 1 1 0 = 1 ∧
    point2plot (F.num (9 / 10)) (F.num 0) (F.num 1) (F.num 1) (F.num 0) ≠
      specMapRound (9 / 10) 0 1 1 0 := by
  norm_num [point2plot, point2plotF, F.sub, F.div, F.mul, F.add, F.toI16, ratTrunc,
    i16clamp, specMapRound, specRound, ratFloor]
  decide

/-- Claim C5 as amended: for every finite value, non-degenerate finite
axis range, finite inner length and margin, the coordinate mapper
returns the scaled value `((value - axisMin) / (axisMax - axisMin)) *
(innerLength - margin) + margin` truncated toward zero (and saturated to
the `i16` range), not rounded to nearest. -/
theorem c5_truncates_scaled_value (pt mn mx l s : ℚ) (h : mn ≠ mx) :
    point2plot (F.num pt) (F.num mn) (F.num mx) (F.num l) (F.num s) =
      i16clamp (ratTrunc (((pt - mn) / (mx - mn)) * (l - s) + s)) := by
  have hd : mx - mn ≠ 0 := sub_ne_zero.mpr (Ne.symm h)
  simp [point2plot, point2plotF, F.sub, F.div, F.mul, F.add, F.toI16, hd]

/-- Witness for C5 amended at `value = 9/10`, range `0..1`, inner length
1, margin 0. -/
theorem c5_truncates_scaled_value_witness :
    point2plot (F.num (9 / 10)) (F.num 0) (F.num 1) (F.num 1) (F.num 0) =
      i16clamp (ratTrunc ((((9 : ℚ) / 10 - 0) / (1 - 0)) * (1 - 0) + 0)) :=
  c5_truncates_scaled_value (9 / 10) 0 1 1 0 (by norm_num)

/-- Claim C6: for any non-degenerate axis range (`min ≠ max`), mapping
the axis minimum yields exactly the margin and mapping the axis maximum
yields exactly the inner length, both as the exact pre-cast value and
after the `as i16` cast. -/
theorem c6_boundary_mapping (mn mx l s : ℚ) (h : mn ≠ mx) :
    point2plotF (F.num mn) (F.num mn) (F.num mx) (F.num l) (F.num s) = F.num s ∧
    point2plotF (F.num mx) (F.num mn) (F.num mx) (F.num l) (F.num s) = F.num l ∧
    point2plot (F.num mn) (F.num mn) (F.num mx) (F.num l) (F.num s) = (F.num s).toI16 ∧
    point2plot (F.num mx) (F.num mn) (F.num mx) (F.num l) (F.num s) = (F.num l).toI16 := by
  have hd : mx - mn ≠ 0 := sub_ne_zero.mpr (Ne.symm h)
  have h1 : point2plotF (F.num mn) (F.num mn) (F.num mx) (F.num l) (F.num s) = F.num s := by
    simp [point2plotF, F.sub, F.div, F.mul, F.add, hd]
  have h2 : point2plotF (F.num mx) (F.num mn) (F.num mx) (F.num l) (F.num s) = F.num l := by
    simp [point2plotF, F.sub, F.div, F.mul, F.add, hd, div_self hd]
  exact ⟨h1, h2, by rw [point2plot, h1], by rw [point2plot, h2]⟩

/-- Witness for C6 at range `0..2`, inner length 100, margin 10. -/
theorem c6_boundary_mapping_witness :
    point2plotF (F.num 0) (F.num 0) (F.num 2) (F.num 100) (F.num 10) = F.num 10 ∧
    point2plotF (F.num 2) (F.num 0) (F.num 2) (F.num 100) (F.num 10) = F.num 100 ∧
    point2plot (F.num 0) (F.num 0) (F.num 2) (F.num 100) (F.num 10) = (F.num 10).toI16 ∧
    point2plot (F.num 2) (F.num 0) (F.num 2) (F.num 100) (F.num 10) = (F.num 100).toI16 :=
  c6_boundary_mapping 0 2 100 10 (by norm_num)

/-- Claim C7 (code bug): `draw()` on a freshly created `Window`, before
any plot data has been set, panics (it unwraps the `None` data fields)
instead of being a no-op — `none` here models the panic, for every
window id and surface size. -/
theorem c7_draw_before_data_panics (id w h : Nat) :
    Window.draw (Window.new id) w h = none := by
  simp [Window.draw, Window.new]

/-- If the drain loop reports termination, the live-window set it
returns is empty: windows are never removed by tasks, and `Terminate`
only breaks out when the set is empty at consumption time. -/
theorem drainTasks_terminated_empty :
    ∀ (tasks : List GUITask) ws ctr ws' ctr',
      drainTasks tasks ws ctr = some (ws', ctr', true) → ws' = [] := by
  intro tasks
  induction tasks with
  | nil => intro ws ctr ws' ctr' hrun; simp [drainTasks] at hrun
  | cons t rest ih =>
    intro ws ctr ws' ctr' hrun
    cases t with
    | PlotTask pb plot =>
      rw [drainTasks] at hrun
      cases hadd : add_window ws ctr pb with
      | none => rw [hadd] at hrun; exact absurd hrun (by simp)
      | some v => rw [hadd] at hrun; exact ih v.1 v.2 ws' ctr' hrun
    | Terminate =>
      rw [drainTasks] at hrun
      by_cases hws : ws.isEmpty
      · rw [if_pos hws] at hrun
        obtain ⟨h1, -, -⟩ := Prod.mk.injEq .. ▸ Option.some.injEq .. ▸ hrun
        exact h1 ▸ List.isEmpty_iff.mp hws
      · rw [if_neg hws] at hrun
        exact ih ws ctr ws' ctr' hrun

/-- Claim C8: consuming a `Terminate` task exits the drain loop
immediately iff the live-window set is empty at that moment; with
windows still open the task is dropped with no effect on the driver
state; and the loop never reports termination while windows remain. -/
theorem c8_terminate_only_when_empty (rest : List GUITask)
    (ws : List (Nat × Window)) (ctr : Nat) :
    (ws = [] → drainTasks (GUITask.Terminate :: rest) ws ctr = some (ws, ctr, true)) ∧
    (ws ≠ [] → drainTasks (GUITask.Terminate :: rest) ws ctr = drainTasks rest ws ctr) ∧
    (∀ tasks ws0 ctr0 ws' ctr',
      drainTasks tasks ws0 ctr0 = some (ws', ctr', true) → ws' = []) := by
  refine ⟨fun hws => ?_, fun hws => ?_, fun tasks ws0 ctr0 ws' ctr' hrun =>
    drainTasks_terminated_empty tasks ws0 ctr0 ws' ctr' hrun⟩
  · subst hws; rw [drainTasks]; simp
  · rw [drainTasks, if_neg (by simpa [List.isEmpty_iff] using hws)]

/-- Witness for C8: a `Terminate` with no windows exits with the flag
set; a `Terminate` with one window open behaves as if it were absent. -/
theorem c8_terminate_only_when_empty_witness :
    drainTasks [GUITask.Terminate] [] 0 = some ([], 0, true) ∧
    drainTasks [GUITask.Terminate, GUITask.Terminate] [(5, Window.new 5)] 0 =
      drainTasks [GUITask.Terminate] [(5, Window.new 5)] 0 :=
  ⟨(c8_terminate_only_when_empty [] [] 0).1 rfl,
   (c8_terminate_only_when_empty [GUITask.Terminate] [(5, Window.new 5)] 0).2.1 (by simp)⟩

/-- Claim C9: `Plotter` construction succeeds iff the process-wide guard
is clear; when the guard is set it fails with the already-initialised
error and leaves the guard alone; otherwise it sets the guard and
returns a handle holding the (fresh, empty) task queue and the spawned
driver thread's join handle. -/
theorem c9_single_instance_guard (g : Bool) :
    ((∃ p, (Plotter.new g).1 = Except.ok p) ↔ g = false) ∧
    (g = true → Plotter.new g =
      (Except.error "Only one gui Plotter may be initialised at a time.", true)) ∧
    (g = false → ∃ p, Plotter.new g = (Except.ok p, true) ∧
      p.plot_gui = some () ∧ p.task_queue = []) := by
  cases g <;> simp [Plotter.new]

/-- Witness for C9 at both guard states. -/
theorem c9_single_instance_guard_witness :
    Plotter.new true =
      (Except.error "Only one gui Plotter may be initialised at a time.", true) ∧
    ∃ p, Plotter.new false = (Except.ok p, true) ∧
      p.plot_gui = some () ∧ p.task_queue = [] :=
  ⟨(c9_single_instance_guard true).2.1 rfl, (c9_single_instance_guard false).2.2 rfl⟩

/-- Unfolding of one iteration of the bounds loop as `Option` binds. -/
theorem boundsLoop_cons (pb : PlotBuilder2D) (x y : List F) (xs ys : List (List F)) :
    boundsLoop pb (x :: xs) (y :: ys) =
      (get_max pb.max_x x).bind fun mxx =>
      (get_max pb.max_y y).bind fun mxy =>
      (get_min pb.min_x x).bind fun mnx =>
      (get_min pb.min_y y).bind fun mny =>
      (boundsLoop pb xs ys).map fun r =>
        (mxx :: r.1, mxy :: r.2.1, mnx :: r.2.2.1, mny :: r.2.2.2) := by
  cases h1 : get_max pb.max_x x <;> cases h2 : get_max pb.max_y y <;>
    cases h3 : get_min pb.min_x x <;> cases h4 : get_min pb.min_y y <;>
    cases h5 : boundsLoop pb xs ys <;>
    simp [boundsLoop, h1, h2, h3, h4, h5]

/-- Claim C1: if any series reaching the bounds resolver is empty and
some axis bound has no user override, `get_plot_bounds` panics (`none`,
the `unwrap` of `values.first()` on the empty vector) instead of
returning bounds — in particular no NaN bounds flow into drawing. -/
theorem c1_empty_series_panics (pb : PlotBuilder2D) (xs ys : List (List F)) (i : Nat)
    (hx : xs.get? i = some []) (hy : ys.get? i = some [])
    (hover : pb.max_x = none ∨ pb.max_y = none ∨ pb.min_x = none ∨ pb.min_y = none) :
    get_plot_bounds pb xs ys = none := by
  suffices h : boundsLoop pb xs ys = none by rw [get_plot_bounds, h]
  induction i generalizing xs ys with
  | zero =>
    cases xs with
    | nil => simp at hx
    | cons x xs' =>
      cases ys with
      | nil => simp [boundsLoop]
      | cons y ys' =>
        simp only [List.get?] at hx hy
        obtain rfl : x = [] := by injection hx
        obtain rfl : y = [] := by injection hy
        rcases hover with h | h | h | h <;>
          simp [boundsLoop_cons, get_max, get_min, h]
  | succ n ih =>
    cases xs with
    | nil => simp at hx
    | cons x xs' =>
      cases ys with
      | nil => simp [boundsLoop]
      | cons y ys' =>
        simp only [List.get?] at hx hy
        rw [boundsLoop_cons, ih xs' ys' hx hy]
        cases get_max pb.max_x x <;> cases get_max pb.max_y y <;>
          cases get_min pb.min_x x <;> cases get_min pb.min_y y <;> simp

/-- Witness for C1: one series, empty, with no `max_x` override. -/
theorem c1_empty_series_panics_witness :
    get_plot_bounds ⟨[], none, some (F.num 1), some (F.num 0), some (F.num 0)⟩ [[]] [[]] =
      none :=
  c1_empty_series_panics ⟨[], none, some (F.num 1), some (F.num 0), some (F.num 0)⟩
    [[]] [[]] 0 rfl rfl (Or.inl rfl)

/-- A concrete request whose four axis overrides are all `7` but whose
series list is empty. -/
def pbNoSeries : PlotBuilder2D :=
  ⟨[], some (F.num 7), some (F.num 7), some (F.num 7), some (F.num 7)⟩

/-- Claim C3, counterexample: with every override set to `7` and zero
series, the resolver returns the NaN seeds of the global folds, not the
overrides — the result does depend on the series data. -/
theorem c3_zero_series_counterexample :
    get_plot_bounds pbNoSeries [] [] = some ⟨F.nan, F.nan, F.nan, F.nan⟩ ∧
    pbNoSeries.max_x = some (F.num 7) ∧ F.nan ≠ F.num 7 := by
  refine ⟨?_, rfl, by simp⟩
  simp [get_plot_bounds, boundsLoop, foldMax, foldMin]

theorem F.fmax_self (v : F) : F.fmax v v = v := by
  cases v with
  | nan => rfl
  | inf s => cases s <;> simp [F.fmax, F.lt]
  | num q => simp [F.fmax, F.lt]

theorem F.fmin_self (v : F) : F.fmin v v = v := by
  cases v with
  | nan => rfl
  | inf s => cases s <;> simp [F.fmin, F.lt]
  | num q => simp [F.fmin, F.lt]

theorem foldl_fmax_replicate (n : Nat) (v : F) :
    List.foldl F.fmax v (List.replicate n v) = v := by
  induction n with
  | zero => rfl
  | succ m ih => simpa [List.replicate, F.fmax_self] using ih

theorem foldl_fmin_replicate (n : Nat) (v : F) :
    List.foldl F.fmin v (List.replicate n v) = v := by
  induction n with
  | zero => rfl
  | succ m ih => simpa [List.replicate, F.fmin_self] using ih

theorem F.fmax_nan (v : F) : F.fmax F.nan v = v := by cases v <;> rfl

theorem F.fmin_nan (v : F) : F.fmin F.nan v = v := by cases v <;> rfl

/-- The global NaN-seeded `f64::max` fold over `n + 1` copies of the
same value returns that value. -/
theorem foldMax_replicate_succ (n : Nat) (v : F) :
    foldMax (List.replicate (n + 1) v) = v := by
  rw [foldMax, List.replicate, List.foldl_cons, F.fmax_nan, foldl_fmax_replicate]

theorem foldMin_replicate_succ (n : Nat) (v : F) :
    foldMin (List.replicate (n + 1) v) = v := by
  rw [foldMin, List.replicate, List.foldl_cons, F.fmin_nan, foldl_fmin_replicate]

/-- On success, an overridden axis makes the corresponding per-series
list a constant list of the override. -/
theorem boundsLoop_override (pb : PlotBuilder2D) :
    ∀ (xs ys : List (List F)) (a b c d : List F),
      boundsLoop pb xs ys = some (a, b, c, d) →
      (∀ v, pb.max_x = some v → a = List.replicate xs.length v) ∧
      (∀ v, pb.max_y = some v → b = List.replicate xs.length v) ∧
      (∀ v, pb.min_x = some v → c = List.replicate xs.length v) ∧
      (∀ v, pb.min_y = some v → d = List.replicate xs.length v) := by
  intro xs
  induction xs with
  | nil =>
    intro ys a b c d h
    simp [boundsLoop] at h
    obtain ⟨rfl, rfl, rfl, rfl⟩ := h
    simp
  | cons x xs' ih =>
    intro ys a b c d h
    cases ys with
    | nil => simp [boundsLoop] at h
    | cons y ys' =>
      rw [boundsLoop_cons] at h
      cases h1 : get_max pb.max_x x with
      | none => rw [h1] at h; simp at h
      | some mxx =>
        cases h2 : get_max pb.max_y y with
        | none => rw [h1, h2] at h; simp at h
        | some mxy =>
          cases h3 : get_min pb.min_x x with
          | none => rw [h1, h2, h3] at h; simp at h
          | some mnx =>
            cases h4 : get_min pb.min_y y with
            | none => rw [h1, h2, h3, h4] at h; simp at h
            | some mny =>
              cases h5 : boundsLoop pb xs' ys' with
              | none => rw [h1, h2, h3, h4, h5] at h; simp at h
              | some r =>
                obtain ⟨r1, r2, r3, r4⟩ := r
                rw [h1, h2, h3, h4, h5] at h
                simp only [Option.bind_some, Option.map_some', Option.some.injEq,
                  Prod.mk.injEq] at h
                obtain ⟨rfl, rfl, rfl, rfl⟩ := h
                obtain ⟨ihm, ihn, ihp, ihq⟩ := ih ys' r1 r2 r3 r4 h5
                refine ⟨fun v hv => ?_, fun v hv => ?_, fun v hv => ?_, fun v hv => ?_⟩
                · have hmv : mxx = v := by rw [hv] at h1; simp [get_max] at h1; exact h1.symm
                  rw [List.length_cons, List.replicate_succ, hmv, ihm v hv]
                · have hmv : mxy = v := by rw [hv] at h2; simp [get_max] at h2; exact h2.symm
                  rw [List.length_cons, List.replicate_succ, hmv, ihn v hv]
                · have hmv : mnx = v := by rw [hv] at h3; simp [get_min] at h3; exact h3.symm
                  rw [List.length_cons, List.replicate_succ, hmv, ihp v hv]
                · have hmv : mny = v := by rw [hv] at h4; simp [get_min] at h4; exact h4.symm
                  rw [List.length_cons, List.replicate_succ, hmv, ihq v hv]

/-- Predicate: `M` is the true numeric maximum of the (rational-valued) series `l`. -/
def IsMaxOf (M : ℚ) (l : List ℚ) : Prop := M ∈ l ∧ ∀ a ∈ l, a ≤ M

/-- Predicate: `m` is the true numeric minimum of the series `l`. -/
def IsMinOf (m : ℚ) (l : List ℚ) : Prop := m ∈ l ∧ ∀ a ∈ l, m ≤ a

/-- Predicate: `M` is the true numeric maximum over all points of all series `ls`
(the per-series ranges unioned, not intersected). -/
def IsGlobalMax (M : ℚ) (ls : List (List ℚ)) : Prop :=
  (∃ l ∈ ls, M ∈ l) ∧ ∀ l ∈ ls, ∀ a ∈ l, a ≤ M

/-- Predicate: `m` is the true numeric minimum over all points of all series. -/
def IsGlobalMin (m : ℚ) (ls : List (List ℚ)) : Prop :=
  (∃ l ∈ ls, m ∈ l) ∧ ∀ l ∈ ls, ∀ a ∈ l, m ≤ a

theorem le_foldl_max (qs : List ℚ) : ∀ m : ℚ, m ≤ qs.foldl max m := by
  induction qs with
  | nil => intro m; simp
  | cons q qs ih =>
    intro m
    rw [List.foldl_cons]
    exact le_trans (le_max_left m q) (ih (max m q))

theorem mem_le_foldl_max (qs : List ℚ) : ∀ (m a : ℚ), a ∈ qs → a ≤ qs.foldl max m := by
  induction qs with
  | nil => intro m a ha; simp at ha
  | cons q qs ih =>
    intro m a ha
    rw [List.foldl_cons]
    rcases List.mem_cons.mp ha with rfl | ha
    · exact le_trans (le_max_right m a) (le_foldl_max qs (max m a))
    · exact ih (max m q) a ha

theorem foldl_max_mem_or_init (qs : List ℚ) :
    ∀ m : ℚ, qs.foldl max m = m ∨ qs.foldl max m ∈ qs := by
  induction qs with
  | nil => intro m; left; rfl
  | cons q qs ih =>
    intro m
    rw [List.foldl_cons]
    rcases ih (max m q) with h | h
    · rcases max_choice m q with hm | hm
      · left; rw [h, hm]
      · right; rw [h, hm]; exact List.mem_cons_self q qs
    · right; exact List.mem_cons_of_mem q h

theorem foldl_min_le (qs : List ℚ) : ∀ m : ℚ, qs.foldl min m ≤ m := by
  induction qs with
  | nil => intro m; simp
  | cons q qs ih =>
    intro m
    rw [List.foldl_cons]
    exact le_trans (ih (min m q)) (min_le_left m q)

theorem foldl_min_le_mem (qs : List ℚ) : ∀ (m a : ℚ), a ∈ qs → qs.foldl min m ≤ a := by
  induction qs with
  | nil => intro m a ha; simp at ha
  | cons q qs ih =>
    intro m a ha
    rw [List.foldl_cons]
    rcases List.mem_cons.mp ha with rfl | ha
    · exact le_trans (foldl_min_le qs (min m a)) (min_le_right m a)
    · exact ih (min m q) a ha

theorem foldl_min_mem_or_init (qs : List ℚ) :
    ∀ m : ℚ, qs.foldl min m = m ∨ qs.foldl min m ∈ qs := by
  induction qs with
  | nil => intro m; left; rfl
  | cons q qs ih =>
    intro m
    rw [List.foldl_cons]
    rcases ih (min m q) with h | h
    · rcases min_choice m q with hm | hm
      · left; rw [h, hm]
      · right; rw [h, hm]; exact List.mem_cons_self q qs
    · right; exact List.mem_cons_of_mem q h

/-- The running-maximum loop of `get_max`, on finite values, computes the
fold of the rational `max`. -/
theorem foldl_getmax_num (qs : List ℚ) : ∀ m : ℚ,
    List.foldl (fun max val => if F.gt val max then val else max) (F.num m) (qs.map F.num) =
      F.num (qs.foldl (fun a b => max a b) m) := by
  induction qs with
  | nil => intro m; rfl
  | cons q qs ih =>
    intro m
    rw [List.map_cons, List.foldl_cons, List.foldl_cons]
    have hstep : (if F.gt (F.num q) (F.num m) then F.num q else F.num m) = F.num (max m q) := by
      by_cases h : m < q
      · simp [F.gt, F.lt, h, max_eq_right h.le]
      · simp [F.gt, F.lt, h, max_eq_left (le_of_not_lt h)]
    rw [hstep, ih]

/-- The running-minimum loop of `get_min`, on finite values. -/
theorem foldl_getmin_num (qs : List ℚ) : ∀ m : ℚ,
    List.foldl (fun min val => if F.lt val min then val else min) (F.num m) (qs.map F.num) =
      F.num (qs.foldl (fun a b => min a b) m) := by
  induction qs with
  | nil => intro m; rfl
  | cons q qs ih =>
    intro m
    rw [List.map_cons, List.foldl_cons, List.foldl_cons]
    have hstep : (if F.lt (F.num q) (F.num m) then F.num q else F.num m) = F.num (min m q) := by
      by_cases h : q < m
      · simp [F.lt, h, min_eq_right h.le]
      · simp [F.lt, h, min_eq_left (le_of_not_lt h)]
    rw [hstep, ih]

/-- Without an override, `get_max` on a non-empty all-finite series
returns its true numeric maximum. -/
theorem get_max_none_spec (l : List ℚ) (hne : l ≠ []) :
    ∃ M, get_max none (l.map F.num) = some (F.num M) ∧ IsMaxOf M l := by
  obtain ⟨q0, qs, rfl⟩ := List.exists_cons_of_ne_nil hne
  refine ⟨(q0 :: qs).foldl (fun a b => max a b) q0, ?_, ?_, ?_⟩
  · rw [List.map_cons, get_max, ← List.map_cons, foldl_getmax_num]
  · rcases foldl_max_mem_or_init (q0 :: qs) q0 with h | h
    · rw [h]; exact List.mem_cons_self q0 qs
    · exact h
  · intro a ha
    exact mem_le_foldl_max (q0 :: qs) q0 a ha

/-- Without an override, `get_min` on a non-empty all-finite series
returns its true numeric minimum. -/
theorem get_min_none_spec (l : List ℚ) (hne : l ≠ []) :
    ∃ m, get_min none (l.map F.num) = some (F.num m) ∧ IsMinOf m l := by
  obtain ⟨q0, qs, rfl⟩ := List.exists_cons_of_ne_nil hne
  refine ⟨(q0 :: qs).foldl (fun a b => min a b) q0, ?_, ?_, ?_⟩
  · rw [List.map_cons, get_min, ← List.map_cons, foldl_getmin_num]
  · rcases foldl_min_mem_or_init (q0 :: qs) q0 with h | h
    · rw [h]; exact List.mem_cons_self q0 qs
    · exact h
  · intro a ha
    exact foldl_min_le_mem (q0 :: qs) q0 a ha

theorem forall2_exists_left {α β : Type} {R : α → β → Prop} :
    ∀ {ms : List α} {ls : List β}, List.Forall₂ R ms ls → ∀ M ∈ ms, ∃ l ∈ ls, R M l := by
  intro ms ls h
  induction h with
  | nil => intro M hM; simp at hM
  | @cons M' l' ms' ls' hR hrest ih =>
    intro M hM
    rcases List.mem_cons.mp hM with rfl | hM
    · exact ⟨l', List.mem_cons_self l' ls', hR⟩
    · obtain ⟨l, hl, hRl⟩ := ih M hM
      exact ⟨l, List.mem_cons_of_mem l' hl, hRl⟩

theorem forall2_exists_right {α β : Type} {R : α → β → Prop} :
    ∀ {ms : List α} {ls : List β}, List.Forall₂ R ms ls → ∀ l ∈ ls, ∃ M ∈ ms, R M l := by
  intro ms ls h
  induction h with
  | nil => intro l hl; simp at hl
  | @cons M' l' ms' ls' hR hrest ih =>
    intro l hl
    rcases List.mem_cons.mp hl with rfl | hl
    · exact ⟨M', List.mem_cons_self M' ms', hR⟩
    · obtain ⟨M, hM, hRM⟩ := ih l hl
      exact ⟨M, List.mem_cons_of_mem M' hM, hRM⟩

/-- With every series non-empty and finite, the bounds loop succeeds
for any combination of per-axis overrides, and each component whose
axis has no override lists the true per-series extrema. -/
theorem boundsLoop_mixed (pb : PlotBuilder2D) :
    ∀ (qxs qys : List (List ℚ)), qxs.length = qys.length →
      (∀ l ∈ qxs, l ≠ []) → (∀ l ∈ qys, l ≠ []) →
      ∃ a b c d : List F,
        boundsLoop pb (qxs.map (fun l => l.map F.num)) (qys.map (fun l => l.map F.num)) =
          some (a, b, c, d) ∧
        (pb.max_x = none → ∃ mxs, a = mxs.map F.num ∧ List.Forall₂ IsMaxOf mxs qxs) ∧
        (pb.max_y = none → ∃ mys, b = mys.map F.num ∧ List.Forall₂ IsMaxOf mys qys) ∧
        (pb.min_x = none → ∃ nxs, c = nxs.map F.num ∧ List.Forall₂ IsMinOf nxs qxs) ∧
        (pb.min_y = none → ∃ nys, d = nys.map F.num ∧ List.Forall₂ IsMinOf nys qys) := by
  intro qxs
  induction qxs with
  | nil =>
    intro qys hlen _ _
    obtain rfl : qys = [] := (List.length_eq_zero.mp hlen.symm)
    exact ⟨[], [], [], [], by simp [boundsLoop],
      fun _ => ⟨[], rfl, .nil⟩, fun _ => ⟨[], rfl, .nil⟩,
      fun _ => ⟨[], rfl, .nil⟩, fun _ => ⟨[], rfl, .nil⟩⟩
  | cons lx qxs' ih =>
    intro qys hlen hxne hyne
    cases qys with
    | nil => simp at hlen
    | cons ly qys' =>
      have hlx : lx ≠ [] := hxne lx (List.mem_cons_self lx qxs')
      have hly : ly ≠ [] := hyne ly (List.mem_cons_self ly qys')
      have hmaxx : ∃ vx, get_max pb.max_x (lx.map F.num) = some vx ∧
          (pb.max_x = none → ∃ M, vx = F.num M ∧ IsMaxOf M lx) := by
        cases hpb : pb.max_x with
        | some v => exact ⟨v, rfl, fun h => absurd h (Option.some_ne_none v)⟩
        | none =>
          obtain ⟨M, hM, hMs⟩ := get_max_none_spec lx hlx
          exact ⟨F.num M, hM, fun _ => ⟨M, rfl, hMs⟩⟩
      have hmaxy : ∃ vy, get_max pb.max_y (ly.map F.num) = some vy ∧
          (pb.max_y = none → ∃ M, vy = F.num M ∧ IsMaxOf M ly) := by
        cases hpb : pb.max_y with
        | some v => exact ⟨v, rfl, fun h => absurd h (Option.some_ne_none v)⟩
        | none =>
          obtain ⟨M, hM, hMs⟩ := get_max_none_spec ly hly
          exact ⟨F.num M, hM, fun _ => ⟨M, rfl, hMs⟩⟩
      have hminx : ∃ wx, get_min pb.min_x (lx.map F.num) = some wx ∧
          (pb.min_x = none → ∃ m, wx = F.num m ∧ IsMinOf m lx) := by
        cases hpb : pb.min_x with
        | some v => exact ⟨v, rfl, fun h => absurd h (Option.some_ne_none v)⟩
        | none =>
          obtain ⟨m, hm, hms⟩ := get_min_none_spec lx hlx
          exact ⟨F.num m, hm, fun _ => ⟨m, rfl, hms⟩⟩
      have hminy : ∃ wy, get_min pb.min_y (ly.map F.num) = some wy ∧
          (pb.min_y = none → ∃ m, wy = F.num m ∧ IsMinOf m ly) := by
        cases hpb : pb.min_y with
        | some v => exact ⟨v, rfl, fun h => absurd h (Option.some_ne_none v)⟩
        | none =>
          obtain ⟨m, hm, hms⟩ := get_min_none_spec ly hly
          exact ⟨F.num m, hm, fun _ => ⟨m, rfl, hms⟩⟩
      obtain ⟨vx, hvx, cvx⟩ := hmaxx
      obtain ⟨vy, hvy, cvy⟩ := hmaxy
      obtain ⟨wx, hwx, cwx⟩ := hminx
      obtain ⟨wy, hwy, cwy⟩ := hminy
      obtain ⟨a', b', c', d', hloop, ca, cb, cc, cd⟩ :=
        ih qys' (by simpa using hlen)
          (fun l hl => hxne l (List.mem_cons_of_mem lx hl))
          (fun l hl => hyne l (List.mem_cons_of_mem ly hl))
      refine ⟨vx :: a', vy :: b', wx :: c', wy :: d', ?_, ?_, ?_, ?_, ?_⟩
      · rw [List.map_cons, List.map_cons, boundsLoop_cons, hvx, hvy, hwx, hwy, hloop]
        simp
      · intro h
        obtain ⟨M, rfl, hMs⟩ := cvx h
        obtain ⟨mxs, rfl, hf⟩ := ca h
        exact ⟨M :: mxs, by simp, .cons hMs hf⟩
      · intro h
        obtain ⟨M, rfl, hMs⟩ := cvy h
        obtain ⟨mys, rfl, hf⟩ := cb h
        exact ⟨M :: mys, by simp, .cons hMs hf⟩
      · intro h
        obtain ⟨m, rfl, hms⟩ := cwx h
        obtain ⟨nxs, rfl, hf⟩ := cc h
        exact ⟨m :: nxs, by simp, .cons hms hf⟩
      · intro h
        obtain ⟨m, rfl, hms⟩ := cwy h
        obtain ⟨nys, rfl, hf⟩ := cd h
        exact ⟨m :: nys, by simp, .cons hms hf⟩

/-- The NaN-seeded global `f64::max` fold over finite per-series maxima
computes the global maximum. -/
theorem foldl_fmax_num (qs : List ℚ) : ∀ m : ℚ,
    List.foldl F.fmax (F.num m) (qs.map F.num) = F.num (qs.foldl (fun a b => max a b) m) := by
  induction qs with
  | nil => intro m; rfl
  | cons q qs ih =>
    intro m
    rw [List.map_cons, List.foldl_cons, List.foldl_cons]
    have hstep : F.fmax (F.num m) (F.num q) = F.num (max m q) := by
      by_cases h : m < q
      · simp [F.fmax, F.lt, h, max_eq_right h.le]
      · simp [F.fmax, F.lt, h, max_eq_left (le_of_not_lt h)]
    rw [hstep, ih]

theorem foldl_fmin_num (qs : List ℚ) : ∀ m : ℚ,
    List.foldl F.fmin (F.num m) (qs.map F.num) = F.num (qs.foldl (fun a b => min a b) m) := by
  induction qs with
  | nil => intro m; rfl
  | cons q qs ih =>
    intro m
    rw [List.map_cons, List.foldl_cons, List.foldl_cons]
    have hstep : F.fmin (F.num m) (F.num q) = F.num (min m q) := by
      by_cases h : q < m
      · simp [F.fmin, F.lt, h, min_eq_right h.le]
      · simp [F.fmin, F.lt, h, min_eq_left (le_of_not_lt h)]
    rw [hstep, ih]

/-- Folding per-series true maxima with the NaN-seeded `f64::max` fold
yields the true global maximum. -/
theorem global_max_spec (mxs : List ℚ) (qls : List (List ℚ))
    (h : List.Forall₂ IsMaxOf mxs qls) (hne : mxs ≠ []) :
    ∃ M, foldMax (mxs.map F.num) = F.num M ∧ IsGlobalMax M qls := by
  obtain ⟨M0, ms, rfl⟩ := List.exists_cons_of_ne_nil hne
  have hG : ∀ M ∈ M0 :: ms, M ≤ ms.foldl max M0 := by
    intro M hM
    rcases List.mem_cons.mp hM with rfl | hM
    · exact le_foldl_max ms M
    · exact mem_le_foldl_max ms M0 M hM
  refine ⟨ms.foldl max M0, ?_, ?_, ?_⟩
  · rw [List.map_cons, foldMax, List.foldl_cons, F.fmax_nan, foldl_fmax_num]
  · have hmem : ms.foldl max M0 ∈ M0 :: ms := by
      rcases foldl_max_mem_or_init ms M0 with hh | hh
      · rw [hh]; exact List.mem_cons_self M0 ms
      · exact List.mem_cons_of_mem M0 hh
    obtain ⟨l, hl, hMl⟩ := forall2_exists_left h _ hmem
    exact ⟨l, hl, hMl.1⟩
  · intro l hl a ha
    obtain ⟨M, hM, hMl⟩ := forall2_exists_right h l hl
    exact le_trans (hMl.2 a ha) (hG M hM)

/-- Folding per-series true minima with the NaN-seeded `f64::min` fold
yields the true global minimum. -/
theorem global_min_spec (nxs : List ℚ) (qls : List (List ℚ))
    (h : List.Forall₂ IsMinOf nxs qls) (hne : nxs ≠ []) :
    ∃ m, foldMin (nxs.map F.num) = F.num m ∧ IsGlobalMin m qls := by
  obtain ⟨m0, ms, rfl⟩ := List.exists_cons_of_ne_nil hne
  have hG : ∀ m ∈ m0 :: ms, ms.foldl min m0 ≤ m := by
    intro m hm
    rcases List.mem_cons.mp hm with rfl | hm
    · exact foldl_min_le ms m
    · exact foldl_min_le_mem ms m0 m hm
  refine ⟨ms.foldl min m0, ?_, ?_, ?_⟩
  · rw [List.map_cons, foldMin, List.foldl_cons, F.fmin_nan, foldl_fmin_num]
  · have hmem : ms.foldl min m0 ∈ m0 :: ms := by
      rcases foldl_min_mem_or_init ms m0 with hh | hh
      · rw [hh]; exact List.mem_cons_self m0 ms
      · exact List.mem_cons_of_mem m0 hh
    obtain ⟨l, hl, hml⟩ := forall2_exists_left h _ hmem
    exact ⟨l, hl, hml.1⟩
  · intro l hl a ha
    obtain ⟨m, hm, hml⟩ := forall2_exists_right h l hl
    exact le_trans (hG m hm) (hml.2 a ha)

/-- Claim C2: for every axis whose bound carries no user override —
independently per axis, the other axes may or may not be overridden —
with at least one series and every series non-empty (and
finite-valued), the resolved bound on that axis is exactly the true
numeric extremum over all points of all series on that axis:
per-series extrema are unioned across series, never intersected. -/
theorem c2_bounds_are_true_extrema (pb : PlotBuilder2D) (qxs qys : List (List ℚ))
    (hne : qxs ≠ []) (hlen : qxs.length = qys.length)
    (hxne : ∀ l ∈ qxs, l ≠ []) (hyne : ∀ l ∈ qys, l ≠ []) :
    ∃ bs, get_plot_bounds pb (qxs.map (fun l => l.map F.num))
        (qys.map (fun l => l.map F.num)) = some bs ∧
      (pb.max_x = none → ∃ M, bs.max_x = F.num M ∧ IsGlobalMax M qxs) ∧
      (pb.max_y = none → ∃ M, bs.max_y = F.num M ∧ IsGlobalMax M qys) ∧
      (pb.min_x = none → ∃ m, bs.min_x = F.num m ∧ IsGlobalMin m qxs) ∧
      (pb.min_y = none → ∃ m, bs.min_y = F.num m ∧ IsGlobalMin m qys) := by
  obtain ⟨a, b, c, d, hloop, ca, cb, cc, cd⟩ := boundsLoop_mixed pb qxs qys hlen hxne hyne
  have hyne' : qys ≠ [] := by
    intro hq
    subst hq
    simp at hlen
    exact hne hlen
  refine ⟨⟨foldMax a, foldMax b, foldMin c, foldMin d⟩,
    by rw [get_plot_bounds, hloop], ?_, ?_, ?_, ?_⟩
  · intro h
    obtain ⟨mxs, rfl, hf⟩ := ca h
    have hmne : mxs ≠ [] := by
      intro hq; subst hq; exact hne (List.length_eq_zero.mp (List.Forall₂.length_eq hf).symm)
    obtain ⟨M, hM, hMg⟩ := global_max_spec mxs qxs hf hmne
    exact ⟨M, hM, hMg⟩
  · intro h
    obtain ⟨mys, rfl, hf⟩ := cb h
    have hmne : mys ≠ [] := by
      intro hq; subst hq; exact hyne' (List.length_eq_zero.mp (List.Forall₂.length_eq hf).symm)
    obtain ⟨M, hM, hMg⟩ := global_max_spec mys qys hf hmne
    exact ⟨M, hM, hMg⟩
  · intro h
    obtain ⟨nxs, rfl, hf⟩ := cc h
    have hmne : nxs ≠ [] := by
      intro hq; subst hq; exact hne (List.length_eq_zero.mp (List.Forall₂.length_eq hf).symm)
    obtain ⟨m, hm, hmg⟩ := global_min_spec nxs qxs hf hmne
    exact ⟨m, hm, hmg⟩
  · intro h
    obtain ⟨nys, rfl, hf⟩ := cd h
    have hmne : nys ≠ [] := by
      intro hq; subst hq; exact hyne' (List.length_eq_zero.mp (List.Forall₂.length_eq hf).symm)
    obtain ⟨m, hm, hmg⟩ := global_min_spec nys qys hf hmne
    exact ⟨m, hm, hmg⟩

/-- A concrete request with mixed overrides: `max_y` and `min_y`
overridden, `max_x` and `min_x` left to the data. -/
def pbMixed : PlotBuilder2D := ⟨[], none, some (F.num 5), none, some (F.num (-3))⟩

/-- Witness for C2: the spec's end-to-end series `[(0,0), (1,1), (2,0)]`
under the mixed-override request `pbMixed`; the non-overridden `max_x`
and `min_x` bounds carry the true extrema `2` and `0`. -/
theorem c2_bounds_are_true_extrema_witness :
    ∃ bs, get_plot_bounds pbMixed
        ([[0, 1, 2]].map (fun l => l.map F.num)) ([[0, 1, 0]].map (fun l => l.map F.num)) =
          some bs ∧
      (pbMixed.max_x = none → ∃ M, bs.max_x = F.num M ∧ IsGlobalMax M [[0, 1, 2]]) ∧
      (pbMixed.max_y = none → ∃ M, bs.max_y = F.num M ∧ IsGlobalMax M [[0, 1, 0]]) ∧
      (pbMixed.min_x = none → ∃ m, bs.min_x = F.num m ∧ IsGlobalMin m [[0, 1, 2]]) ∧
      (pbMixed.min_y = none → ∃ m, bs.min_y = F.num m ∧ IsGlobalMin m [[0, 1, 0]]) :=
  c2_bounds_are_true_extrema pbMixed [[0, 1, 2]] [[0, 1, 0]]
    (by simp) rfl (by simp) (by simp)

/-- Claim C3 as amended: whenever at least one series is present and the
resolver returns at all, every overridden axis bound comes back exactly
as the override, independent of the data; with zero series the resolver
instead returns the NaN fold seeds (see the counterexample). -/
theorem c3_override_returned_verbatim (pb : PlotBuilder2D) (xs ys : List (List F))
    (bs : PlotBounds) (hne : xs ≠ []) (h : get_plot_bounds pb xs ys = some bs) :
    (∀ v, pb.max_x = some v → bs.max_x = v) ∧
    (∀ v, pb.max_y = some v → bs.max_y = v) ∧
    (∀ v, pb.min_x = some v → bs.min_x = v) ∧
    (∀ v, pb.min_y = some v → bs.min_y = v) := by
  rw [get_plot_bounds] at h
  cases hb : boundsLoop pb xs ys with
  | none => rw [hb] at h; simp at h
  | some r =>
    obtain ⟨a, b, c, d⟩ := r
    rw [hb] at h
    simp only [Option.some.injEq] at h
    obtain ⟨n, hn⟩ : ∃ n, xs.length = n + 1 := by
      cases xs with
      | nil => exact absurd rfl hne
      | cons hd tl => exact ⟨tl.length, rfl⟩
    obtain ⟨ha, hb', hc, hd⟩ := boundsLoop_override pb xs ys a b c d hb
    subst h
    refine ⟨fun v hv => ?_, fun v hv => ?_, fun v hv => ?_, fun v hv => ?_⟩
    · show foldMax a = v
      rw [ha v hv, hn, foldMax_replicate_succ]
    · show foldMax b = v
      rw [hb' v hv, hn, foldMax_replicate_succ]
    · show foldMin c = v
      rw [hc v hv, hn, foldMin_replicate_succ]
    · show foldMin d = v
      rw [hd v hv, hn, foldMin_replicate_succ]

/-- Witness for C3 amended: one series, `max_x` overridden to 9; the
resolver succeeds and the returned `max_x` is exactly 9. -/
theorem c3_override_returned_verbatim_witness :
    (PlotBounds.mk (F.num 9) (F.num 2) (F.num 1) (F.num 2)).max_x = F.num 9 :=
  (c3_override_returned_verbatim ⟨[], some (F.num 9), none, none, none⟩
    [[F.num 1]] [[F.num 2]] (PlotBounds.mk (F.num 9) (F.num 2) (F.num 1) (F.num 2))
    (by simp)
    (by simp [get_plot_bounds, boundsLoop, get_max, get_min, foldMax, foldMin,
      F.fmax, F.fmin, F.gt, F.lt])).1 (F.num 9) rfl

theorem pushLast_append (v : List (List F)) (t : List F) (x : F) :
    pushLast (v ++ [t]) x = v ++ [t ++ [x]] := by
  induction v with
  | nil => rfl
  | cons l ls ih =>
    cases ls with
    | nil => rfl
    | cons l2 ls2 =>
      simp only [List.cons_append] at ih ⊢
      rw [pushLast, ih]
      simp

/-- The inner loop of `set_xy`, with the state's two last vectors made
explicit: it appends each pair's components to them. -/
theorem set_xy_go (xy : List (F × F)) : ∀ (xv yv : List (List F)) (ax ay : List F),
    xy.foldl (fun acc p => (pushLast acc.1 p.1, pushLast acc.2 p.2)) (xv ++ [ax], yv ++ [ay]) =
      (xv ++ [ax ++ xy.map Prod.fst], yv ++ [ay ++ xy.map Prod.snd]) := by
  induction xy with
  | nil => intro xv yv ax ay; simp
  | cons p rest ih =>
    intro xv yv ax ay
    rw [List.foldl_cons]
    show List.foldl _ (pushLast (xv ++ [ax]) p.1, pushLast (yv ++ [ay]) p.2) rest = _
    rw [pushLast_append, pushLast_append, ih]
    simp

/-- Lemma form: `set_xy` appends one new series to each vector: the first components
of the pairs as the x-series, the second components as the y-series. -/
theorem set_xy_spec (xy : List (F × F)) (xv yv : List (List F)) :
    set_xy xy xv yv = (xv ++ [xy.map Prod.fst], yv ++ [xy.map Prod.snd]) := by
  rw [set_xy, set_xy_go]
  simp

/-- The `XyColor` entries of a plot-value list, in submission order. -/
def xyColorEntries (pvs : List PlotVals2D) : List (Color × List (F × F)) :=
  pvs.filterMap (fun pv =>
    match pv with
    | PlotVals2D.XyColor c xy => some (c, xy)
    | PlotVals2D.OtherVariant => none)

/-- The `new2d` accumulation loop with an explicit starting state. -/
theorem new2dVectors_go (pvs : List PlotVals2D) :
    ∀ (cacc : List Color) (xacc yacc : List (List F)),
      pvs.foldl
        (fun acc pv =>
          match pv with
          | PlotVals2D.XyColor col xy =>
              let v := set_xy xy acc.2.1 acc.2.2
              (acc.1 ++ [col], v.1, v.2)
          | PlotVals2D.OtherVariant => acc)
        (cacc, xacc, yacc) =
      (cacc ++ (xyColorEntries pvs).map Prod.fst,
       xacc ++ (xyColorEntries pvs).map (fun e => e.2.map Prod.fst),
       yacc ++ (xyColorEntries pvs).map (fun e => e.2.map Prod.snd)) := by
  induction pvs with
  | nil => intro cacc xacc yacc; simp [xyColorEntries]
  | cons pv rest ih =>
    intro cacc xacc yacc
    cases pv with
    | XyColor col xy =>
      rw [List.foldl_cons]
      show List.foldl _ (cacc ++ [col], (set_xy xy xacc yacc).1, (set_xy xy xacc yacc).2)
        rest = _
      rw [set_xy_spec, ih]
      simp [xyColorEntries, List.filterMap_cons]
    | OtherVariant =>
      rw [List.foldl_cons]
      show List.foldl _ (cacc, xacc, yacc) rest = _
      rw [ih]
      simp [xyColorEntries, List.filterMap_cons]

theorem forall2_len_maps {α : Type} (es : List α) (f g : α → List F)
    (h : ∀ e, (f e).length = (g e).length) :
    List.Forall₂ (fun lx ly => lx.length = ly.length) (es.map f) (es.map g) := by
  induction es with
  | nil => exact .nil
  | cons e rest ih => exact .cons (h e) ih

/-- Claim C10: processing a plot request keeps exactly the `XyColor`
entries, in submission order — one color, one x-series (the first pair
components) and one y-series (the second pair components) per entry — so
the three vectors always have equal length and, per series, the x- and
y-series have equal length: the invariant `Window::draw`'s parallel
indexing relies on. -/
theorem c10_xycolor_only_parallel_vectors (pvs : List PlotVals2D) :
    new2dVectors pvs =
      ((xyColorEntries pvs).map Prod.fst,
       (xyColorEntries pvs).map (fun e => e.2.map Prod.fst),
       (xyColorEntries pvs).map (fun e => e.2.map Prod.snd)) ∧
    (new2dVectors pvs).1.length = (xyColorEntries pvs).length ∧
    (new2dVectors pvs).2.1.length = (xyColorEntries pvs).length ∧
    (new2dVectors pvs).2.2.length = (xyColorEntries pvs).length ∧
    List.Forall₂ (fun lx ly => lx.length = ly.length)
      (new2dVectors pvs).2.1 (new2dVectors pvs).2.2 := by
  have h : new2dVectors pvs =
      ((xyColorEntries pvs).map Prod.fst,
       (xyColorEntries pvs).map (fun e => e.2.map Prod.fst),
       (xyColorEntries pvs).map (fun e => e.2.map Prod.snd)) := by
    rw [new2dVectors, new2dVectors_go]
    simp
  refine ⟨h, ?_, ?_, ?_, ?_⟩
  · rw [h]; simp
  · rw [h]; simp
  · rw [h]; simp
  · rw [h]
    exact forall2_len_maps (xyColorEntries pvs) _ _ (fun e => by simp)
